import Mathlib

/-!
Verification of the metro-map mutation engine
(`examples/metro-map/backend/app/data/metro_map_store.py`).

The Python store works with integer grid coordinates (the `Station` pydantic
model declares `x : int`, `y : int`), so the float tolerances in the source
(`1e-6`, `GRID_X_SPACING = 1.0`) are translated over `Int`: a difference with
absolute value below `1e-6` means the difference is zero, and a difference
with absolute value below one grid unit means the absolute difference is
strictly less than `1`.
-/

namespace Metro

/-- `Station` pydantic model. -/
structure Station where
  id : String
  name : String
  x : Int
  y : Int
  lines : List String := []
deriving Repr, DecidableEq

/-- `Line` pydantic model. -/
structure Line where
  id : String
  name : String
  color : String
  stations : List String
deriving Repr, DecidableEq

/-- `MetroMap` pydantic model. -/
structure MetroMap where
  id : String
  name : String
  summary : String
  stations : List Station
  lines : List Line
deriving Repr, DecidableEq

/-- The mutable state of a `MetroMapStore`: the active map plus the two
derived lookup tables (`_station_lookup`, `_line_lookup`).  Python dicts are
modelled as association lists with insert-or-overwrite update. -/
structure MetroMapStore where
  map : MetroMap
  stationLookup : List (String × Station)
  lineLookup : List (String × Line)
deriving Repr, DecidableEq

/-- Errors raised by the store.  The source raises `ValueError`s distinguished
only by message; each constructor captures the data interpolated into the
corresponding message. -/
inductive StoreError where
  /-- "Spacing conflict: multiple stations share the cell (x, y)." -/
  | spacingConflict (x y : Int)
  /-- "Station 'anchorId' is not on the lineName." -/
  | stationNotOnLine (anchorId lineName : String)
  /-- the `ValueError` raised by `list.index` when the id is absent -/
  | notInList (stationId : String)
  /-- the `KeyError` raised by `self._station_lookup[...]` -/
  | keyError (key : String)
  /-- an `IndexError` from list indexing (unreachable in the store's calls) -/
  | indexError
  /-- "Unable to place station while respecting spacing requirements." -/
  | unableToPlace
deriving Repr, DecidableEq

deriving instance DecidableEq for Except

/-- `SOLARIZED_COLORS`. -/
def SOLARIZED_COLORS : List String :=
  ["#268bd2", "#2aa198", "#859900", "#b58900",
   "#cb4b16", "#dc322f", "#d33682", "#6c71c4"]

/-- Update-or-append assignment `d[k] = v` on a Python dict. -/
def dictInsert {α : Type} : List (String × α) → String → α → List (String × α)
  | [], k, v => [(k, v)]
  | (k', v') :: rest, k, v =>
    if k' = k then (k, v) :: rest else (k', v') :: dictInsert rest k v

/-- `d.get(k)` on a Python dict. -/
def dictGet {α : Type} : List (String × α) → String → Option α
  | [], _ => none
  | (k', v) :: rest, k => if k' = k then some v else dictGet rest k

/-- The keys of a dict. -/
def keysOf {α : Type} (d : List (String × α)) : List String := d.map Prod.fst

/-- Characters that survive the slug regex `[^a-z0-9]+` after lower-casing. -/
def isSlugChar (c : Char) : Bool := ('a' ≤ c && c ≤ 'z') || ('0' ≤ c && c ≤ '9')

/-- Collapse consecutive hyphens, mirroring the `+` in the regex. -/
def collapseDashes : List Char → List Char
  | [] => []
  | [c] => [c]
  | c :: d :: rest =>
    if c == '-' && d == '-' then collapseDashes (d :: rest)
    else c :: collapseDashes (d :: rest)

/-- `.strip("-")`. -/
def stripDashes (l : List Char) : List Char :=
  ((l.dropWhile (· == '-')).reverse.dropWhile (· == '-')).reverse

/-- `_normalize_id(value, fallback)`: lower-case, replace runs of
non-alphanumerics with one hyphen, strip hyphens, fall back when empty. -/
def normalizeId (value : String) (fallback : String) : String :=
  let lowered := value.data.map Char.toLower
  let hyphened := lowered.map fun c => if isSlugChar c then c else '-'
  let slug := String.mk (stripDashes (collapseDashes hyphened))
  if slug = "" then fallback else slug

/-- Little-endian decimal digits, structurally bounded by a fuel argument
(the Python loop is a terminating div-by-ten recursion). -/
def digitsLEAux : Nat → Nat → List Nat
  | _, 0 => []
  | n, fuel + 1 => if n < 10 then [n] else n % 10 :: digitsLEAux (n / 10) fuel

/-- Little-endian decimal digits of `n`. -/
def digitsLE (n : Nat) : List Nat := digitsLEAux n (n + 1)

/-- Decimal digit to character. -/
def digitChar : Nat → Char
  | 0 => '0' | 1 => '1' | 2 => '2' | 3 => '3' | 4 => '4'
  | 5 => '5' | 6 => '6' | 7 => '7' | 8 => '8' | 9 => '9'
  | _ => '*'

/-- Decimal rendering of a natural number, as Python's f-string does. -/
def natRepr (n : Nat) : String := String.mk ((digitsLE n).reverse.map digitChar)

/-- One candidate of `_next_station_id`'s while loop. -/
def idCandidate (base : String) (counter : Nat) : String :=
  base ++ "-" ++ natRepr counter

/-- The while loop of `_next_station_id`, structurally bounded by fuel.
The loop always terminates (`nextStationIdAux_spec` below proves the fuel
passed by `nextStationId` is sufficient), so the fuel-exhausted branch is
unreachable. -/
def nextStationIdAux (keys : List String) (base : String) : Nat → Nat → String
  | _, 0 => base
  | counter, fuel + 1 =>
    let candidate := idCandidate base counter
    if candidate ∈ keys then nextStationIdAux keys base (counter + 1) fuel
    else candidate

/-- `_next_station_id(station_name)`; `keys` are the keys of
`_station_lookup`. -/
def nextStationId (keys : List String) (stationName : String) : String :=
  let base := normalizeId stationName "station"
  if base ∈ keys then nextStationIdAux keys base 2 (keys.length + 2) else base

/-- `str.lower()` character by character (kernel-reducible, unlike the
built-in `String` mapping). -/
def lowerStr (s : String) : String := String.mk (s.data.map Char.toLower)

/-- The colors currently used by lines, lower-cased (`used` in the source). -/
def usedColors (lines : List Line) : List String :=
  lines.map fun l => lowerStr l.color

/-- `_pick_line_color(requested)`: a (non-empty, hence truthy) requested color
wins; otherwise the first palette color whose lower-casing is unused;
otherwise the palette entry at the current line count modulo the palette
size. -/
def pickLineColor (lines : List Line) (requested : Option String) : String :=
  match requested with
  | some r =>
    if r = "" then pickLineColorAuto lines else r
  | none => pickLineColorAuto lines
where
  pickLineColorAuto (lines : List Line) : String :=
    match SOLARIZED_COLORS.find? (fun c => !decide (lowerStr c ∈ usedColors lines)) with
    | some c => c
    | none => SOLARIZED_COLORS.getD (lines.length % SOLARIZED_COLORS.length) ""

/-- Placement orientation. -/
inductive Orientation where
  | horizontal
  | vertical
deriving Repr, DecidableEq

/-- `_infer_orientation(line, insertion_index)`.  List indexing and dict
lookups that would raise in Python surface as errors. -/
def inferOrientation (stationLookup : List (String × Station)) (line : Line)
    (insertionIndex : Nat) : Except StoreError (Orientation × Int) :=
  if 2 ≤ line.stations.length then
    let idx := max 1 (insertionIndex - 1)
    match line.stations[idx - 1]? with
    | none => .error .indexError
    | some firstId =>
      match (if idx < line.stations.length then line.stations[idx]?
             else line.stations[idx - 1]?) with
      | none => .error .indexError
      | some secondId =>
        match dictGet stationLookup firstId with
        | none => .error (.keyError firstId)
        | some first =>
          match dictGet stationLookup secondId with
          | none => .error (.keyError secondId)
          | some second =>
            let dx := second.x - first.x
            let dy := second.y - first.y
            if dy.natAbs ≤ dx.natAbs then
              .ok (.horizontal, if 0 ≤ dx then 1 else -1)
            else
              .ok (.vertical, if 0 ≤ dy then 1 else -1)
  else .ok (.horizontal, 1)

/-- `_has_spacing_conflict(x, y)` over integer grid coordinates.  The three
float conditions of the source translate clause by clause: direct overlap,
same row with horizontal gap below one grid unit, same column with vertical
gap below one grid unit. -/
def hasSpacingConflict (stations : List Station) (x y : Int) : Bool :=
  stations.any fun s =>
    ((s.x - x).natAbs = 0 && (s.y - y).natAbs = 0) ||
    ((s.y - y).natAbs = 0 && (s.x - x).natAbs < 1) ||
    ((s.x - x).natAbs = 0 && (s.y - y).natAbs < 1)

/-- `min(l, default=d)`. -/
def listMinD (l : List Int) (d : Int) : Int :=
  match l with
  | [] => d
  | a :: rest => rest.foldl min a

/-- `max(l, default=d)`. -/
def listMaxD (l : List Int) (d : Int) : Int :=
  match l with
  | [] => d
  | a :: rest => rest.foldl max a

/-- First component of `_map_bounds`. -/
def minXOf (stations : List Station) : Int := listMinD (stations.map (·.x)) 0

/-- Second component of `_map_bounds`. -/
def maxXOf (stations : List Station) : Int := listMaxD (stations.map (·.x)) 0

/-- Third component of `_map_bounds`. -/
def minYOf (stations : List Station) : Int := listMinD (stations.map (·.y)) 0

/-- Fourth component of `_map_bounds`. -/
def maxYOf (stations : List Station) : Int := listMaxD (stations.map (·.y)) 0

/-- `_map_bounds()`. -/
def mapBounds (stations : List Station) : Int × Int × Int × Int :=
  (minXOf stations, maxXOf stations, minYOf stations, maxYOf stations)

/-- `_starting_position()`. -/
def startingPosition (stations : List Station) : Int × Int :=
  if stations = [] then (0, 0) else (maxXOf stations + 1, minYOf stations)

/-- Base point of `_plan_coordinates`: the anchor if any, else the starting
position. -/
def planBase (stations : List Station) (anchor : Option Station) : Int × Int :=
  match anchor with
  | some a => (a.x, a.y)
  | none => startingPosition stations

/-- `preferred = direction or 1` (0 is falsy in Python). -/
def planPreferred (direction : Int) : Int := if direction = 0 then 1 else direction

/-- `start_offset = 1 if anchor else 0`. -/
def planStartOffset (anchor : Option Station) : Nat := if anchor.isSome then 1 else 0

/-- The candidates scanned for one sign in the local-search phase of
`_plan_coordinates`: offsets `range(start_offset, 16)` along the chosen
axis. -/
def offsetCandidates (baseX baseY : Int) (orientation : Orientation) (sign : Int)
    (startOffset : Nat) : List (Int × Int) :=
  ((List.range 16).drop startOffset).map fun offset =>
    match orientation with
    | .horizontal => (baseX + Int.ofNat offset * sign, baseY)
    | .vertical => (baseX, baseY + Int.ofNat offset * sign)

/-- All local-search candidates, preferred sign first. -/
def localCandidates (baseX baseY : Int) (orientation : Orientation) (preferred : Int)
    (startOffset : Nat) : List (Int × Int) :=
  offsetCandidates baseX baseY orientation preferred startOffset ++
    offsetCandidates baseX baseY orientation (-preferred) startOffset

/-- The diagonal fallback candidates `(max_x + delta, max_y + delta)` for
`delta in range(1, 20)`. -/
def diagCandidates (maxX maxY : Int) : List (Int × Int) :=
  (List.range 19).map fun d => (maxX + (Int.ofNat d + 1), maxY + (Int.ofNat d + 1))

/-- `_plan_coordinates(anchor, orientation, direction)`. -/
def planCoordinates (stations : List Station) (anchor : Option Station)
    (orientation : Orientation) (direction : Int) : Except StoreError (Int × Int) :=
  let base := planBase stations anchor
  match (localCandidates base.1 base.2 orientation (planPreferred direction)
      (planStartOffset anchor)).find?
      (fun c => !hasSpacingConflict stations c.1 c.2) with
  | some c => .ok c
  | none =>
    match (diagCandidates (maxXOf stations) (maxYOf stations)).find?
        (fun c => !hasSpacingConflict stations c.1 c.2) with
    | some c => .ok c
    | none => .error .unableToPlace

/-- `_validate_spacing`'s loop: the occupied set accumulates the exact cells
seen so far, and the first station whose cell is already occupied produces
the error data. -/
def validateSpacingAux (occupied : List (Int × Int)) : List Station → Option (Int × Int)
  | [] => none
  | s :: rest =>
    if (s.x, s.y) ∈ occupied then some (s.x, s.y)
    else validateSpacingAux ((s.x, s.y) :: occupied) rest

/-- `_validate_spacing(metro_map)` as the optional conflicting cell. -/
def validateSpacing (m : MetroMap) : Option (Int × Int) := validateSpacingAux [] m.stations

/-- `{station.id: station for station in metro_map.stations}`. -/
def buildStationLookup (stations : List Station) : List (String × Station) :=
  stations.foldl (fun d st => dictInsert d st.id st) []

/-- `{line.id: line for line in metro_map.lines}`. -/
def buildLineLookup (lines : List Line) : List (String × Line) :=
  lines.foldl (fun d l => dictInsert d l.id l) []

/-- `update_map(map_data)`: validate spacing, then install the map and rebuild
both lookups. -/
def updateMap (m : MetroMap) : Except StoreError MetroMapStore :=
  match validateSpacing m with
  | some (x, y) => .error (.spacingConflict x y)
  | none => .ok ⟨m, buildStationLookup m.stations, buildLineLookup m.lines⟩

/-- `interchanges()`. -/
def interchanges (s : MetroMapStore) : List Station :=
  s.map.stations.filter fun st => decide (1 < st.lines.length)

/-- The arguments of `add_station`. -/
structure AddArgs where
  lineId : String
  stationName : String
  lineName : Option String := none
  lineColor : Option String := none
  afterStationId : Option String := none
deriving Repr, DecidableEq

/-- The successful result of `add_station`: the post-call store state and the
returned `(station, line)` pair. -/
structure AddResult where
  store : MetroMapStore
  station : Station
  line : Line
deriving Repr, DecidableEq

/-- Line resolution in `add_station`: exact id in the lookup, then the
normalized id, then a scan of `map.lines` matching on normalized names. -/
def resolveLine (s : MetroMapStore) (lineId normalizedLineId : String) : Option Line :=
  match dictGet s.lineLookup lineId with
  | some l => some l
  | none =>
    match dictGet s.lineLookup normalizedLineId with
    | some l => some l
    | none => s.map.lines.find? fun c => normalizeId c.name "id" == normalizedLineId

/-- The line-creation branch of `add_station`: when no line resolves, build a
new empty line, append it to the map and patch the line lookup. -/
def ensureLine (s : MetroMapStore) (a : AddArgs) (normalizedLineId : String) :
    MetroMapStore × Line :=
  match resolveLine s a.lineId normalizedLineId with
  | some l => (s, l)
  | none =>
    let color := pickLineColor s.map.lines a.lineColor
    let name :=
      match a.lineName with
      | some n => if n = "" then titleCase normalizedLineId ++ " Line" else n
      | none => titleCase normalizedLineId ++ " Line"
    let newLine : Line := ⟨normalizedLineId, name, color, []⟩
    (⟨{ s.map with lines := s.map.lines ++ [newLine] },
      s.stationLookup,
      dictInsert s.lineLookup newLine.id newLine⟩, newLine)
where
  /-- `str.title()` on a slug: the first alphabetic character of each
  letter-run is upper-cased, the rest lower-cased. -/
  titleCase (str : String) : String := String.mk (titleAux true str.data)
  titleAux : Bool → List Char → List Char
    | _, [] => []
    | startOfWord, c :: rest =>
      if c.isAlpha then
        (if startOfWord then c.toUpper else c.toLower) :: titleAux false rest
      else c :: titleAux true rest

/-- `list.index` returning the first index of `x`, or `none` where Python
raises `ValueError`. -/
def listIndexOf : List String → String → Option Nat
  | [], _ => none
  | a :: rest, x => if a = x then some 0 else (listIndexOf rest x).map (· + 1)

/-- `list.insert(n, a)`; Python clamps an out-of-range index to an append. -/
def insertAt (l : List String) (n : Nat) (a : String) : List String :=
  l.take n ++ a :: l.drop n

/-- The insertion-index/anchor resolution of `add_station`: default to the end
of the line; with a non-empty station list, resolve the anchor (the explicit
`after_station_id` if truthy, else the last station) and insert right after
it, raising when the anchor misses the lookup or the line's list. -/
def resolveAnchor (s1 : MetroMapStore) (line : Line) (afterStationId : Option String) :
    Except StoreError (Nat × Option Station) :=
  if line.stations.isEmpty then .ok (line.stations.length, none)
  else
    let anchorId :=
      match afterStationId with
      | some aid => if aid = "" then line.stations.getLastD "" else aid
      | none => line.stations.getLastD ""
    match dictGet s1.stationLookup anchorId with
    | none => .error (.stationNotOnLine anchorId line.name)
    | some anchorStation =>
      match listIndexOf line.stations anchorStation.id with
      | none => .error (.notInList anchorStation.id)
      | some i => .ok (i + 1, some anchorStation)

/-- The commit step of `add_station`: append the new station, patch the
station lookup, and splice the station id into the line (the Python code
mutates the shared `Line` object, so the map's line list and the line lookup
both see the updated line). -/
def commitStation (s1 : MetroMapStore) (line : Line) (insertionIndex : Nat)
    (stationId stationName : String) (x y : Int) : AddResult :=
  let station : Station := ⟨stationId, stationName, x, y, [line.id]⟩
  let newLine : Line := { line with stations := insertAt line.stations insertionIndex stationId }
  ⟨⟨{ s1.map with
      stations := s1.map.stations ++ [station],
      lines := replaceLine s1.map.lines line.id newLine },
    dictInsert s1.stationLookup stationId station,
    dictInsert s1.lineLookup line.id newLine⟩, station, newLine⟩
where
  /-- Replace the first line carrying the given id (the object Python
  mutated in place). -/
  replaceLine : List Line → String → Line → List Line
    | [], _, _ => []
    | l :: rest, targetId, newLine =>
      if l.id = targetId then newLine :: rest else l :: replaceLine rest targetId newLine

/-- `add_station`.  A raised error carries the store state at the moment of
the raise, so partial mutations (were there any) would be observable. -/
def addStation (s : MetroMapStore) (a : AddArgs) :
    Except (StoreError × MetroMapStore) AddResult :=
  let normalizedLineId := normalizeId a.lineId "line"
  let el := ensureLine s a normalizedLineId
  let s1 := el.1
  let line := el.2
  match resolveAnchor s1 line a.afterStationId with
  | .error e => .error (e, s1)
  | .ok (insertionIndex, anchor) =>
    let stationId := nextStationId (keysOf s1.stationLookup) a.stationName
    match inferOrientation s1.stationLookup line insertionIndex with
    | .error e => .error (e, s1)
    | .ok (orientation, direction) =>
      match planCoordinates s1.map.stations anchor orientation direction with
      | .error e => .error (e, s1)
      | .ok c => .ok (commitStation s1 line insertionIndex stationId a.stationName c.1 c.2)

/-- Run a sequence of `add_station` calls, keeping the store state a raise
leaves behind. -/
def runAdds (s : MetroMapStore) : List AddArgs → MetroMapStore
  | [] => s
  | a :: rest =>
    match addStation s a with
    | .ok r => runAdds r.store rest
    | .error (_, s1) => runAdds s1 rest

/-- The station ids of a map, in order. -/
def stationIds (m : MetroMap) : List String := m.stations.map (·.id)

/-- The line ids of a map, in order. -/
def lineIds (m : MetroMap) : List String := m.lines.map (·.id)

/-- The occupied cells of a map, in station order. -/
def coords (m : MetroMap) : List (Int × Int) := m.stations.map fun s => (s.x, s.y)

/-- `True` on a successful `Except`. -/
def exceptIsOk {ε α : Type} : Except ε α → Bool
  | .ok _ => true
  | .error _ => false

/-- The store state an `add_station` call leaves behind, raise or not. -/
def addOutcomeStore (s : MetroMapStore) (a : AddArgs) : MetroMapStore :=
  match addStation s a with
  | .ok r => r.store
  | .error (_, s1) => s1

/-- The planned coordinates of the station an `add_station` call created, if
it succeeded. -/
def addStationCoord (s : MetroMapStore) (a : AddArgs) : Option (Int × Int) :=
  match addStation s a with
  | .ok r => some (r.station.x, r.station.y)
  | .error _ => none

end Metro

/-! ### Derived and specification-side definitions -/

namespace Metro

/-- The value of a little-endian digit list (used to show decimal rendering
is injective). -/
def digitsVal : List Nat → Nat
  | [] => 0
  | d :: ds => d + 10 * digitsVal ds

/-- Modelled from the spec wording of the SpacingValidator (section 4.4):
two stations are "too close" when they match exactly, or share a row with a
horizontal gap below one grid unit, or share a column with a vertical gap
below one grid unit.  Over integer coordinates the tolerances are as in the
module comment above. -/
def specTooClose (a b : Station) : Bool :=
  ((a.x - b.x).natAbs = 0 && (a.y - b.y).natAbs = 0) ||
  ((a.y - b.y).natAbs = 0 && (a.x - b.x).natAbs < 1) ||
  ((a.x - b.x).natAbs = 0 && (a.y - b.y).natAbs < 1)

/-- Modelled from the spec wording: scan the stations in order and report the
cell of the first station that is too close to an earlier one. -/
def firstConflictSpecAux (seen : List Station) : List Station → Option (Int × Int)
  | [] => none
  | s :: rest =>
    if seen.any (fun t => specTooClose t s) then some (s.x, s.y)
    else firstConflictSpecAux (seen ++ [s]) rest

/-- Modelled from the spec wording: the coordinates of the first conflicting
pair in a station list, if any. -/
def firstConflictSpec (stations : List Station) : Option (Int × Int) :=
  firstConflictSpecAux [] stations

/-- The store invariant maintained by loading and by `add_station`: occupied
cells are pairwise distinct, station and line ids are pairwise distinct, and
every station/line id of the map is a key of the corresponding lookup. -/
structure Invariant (s : MetroMapStore) : Prop where
  coords_nodup : (coords s.map).Nodup
  station_ids_nodup : (stationIds s.map).Nodup
  line_ids_nodup : (lineIds s.map).Nodup
  station_keys : ∀ st ∈ s.map.stations, st.id ∈ keysOf s.stationLookup
  line_keys : ∀ l ∈ s.map.lines, l.id ∈ keysOf s.lineLookup

/-- Repeatedly create lines with no requested color, as nine `add_station`
calls on fresh line ids would. -/
def autoCreateLines : Nat → List Line
  | 0 => []
  | n + 1 =>
    let prev := autoCreateLines n
    prev ++ [⟨"l", "l", pickLineColor prev none, []⟩]

/-! Concrete fixtures used by counterexamples and witnesses. -/

/-- An empty starter map. -/
def map0 : MetroMap := ⟨"m", "m", "m", [], []⟩

/-- The store after loading `map0`. -/
def store0 : MetroMapStore := ⟨map0, [], []⟩

/-- A map holding two distinct stations with the same id "a" on different
cells; `_validate_spacing` accepts it. -/
def dupMap : MetroMap := ⟨"m", "m", "m", [⟨"a", "A", 0, 0, []⟩, ⟨"a", "B", 5, 5, []⟩], []⟩

/-- Station fixture at the origin. -/
def st6a : Station := ⟨"a", "A", 0, 0, ["red"]⟩

/-- Station fixture at `(1, 0)`. -/
def st6b : Station := ⟨"b", "B", 1, 0, ["red"]⟩

/-- A red line through `st6a` and `st6b`. -/
def ln6 : Line := ⟨"red", "Red Line", "#268bd2", ["a", "b"]⟩

/-- A store with one horizontal two-station line. -/
def store6 : MetroMapStore :=
  ⟨⟨"m", "m", "m", [st6a, st6b], [ln6]⟩, [("a", st6a), ("b", st6b)], [("red", ln6)]⟩

/-- A red line holding only `st6a`. -/
def ln2w : Line := ⟨"red", "Red Line", "#268bd2", ["a"]⟩

/-- A store with one single-station line, used to exercise the
unknown-anchor error path. -/
def store2w : MetroMapStore :=
  ⟨⟨"m", "m", "m", [st6a], [ln2w]⟩, [("a", st6a)], [("red", ln2w)]⟩

/-- A nameless station fixture for the saturated-row configuration. -/
def rowStation (x : Int) : Station := ⟨"s", "s", x, 0, []⟩

/-- Thirty stations filling every cell the local search will probe from an
anchor at the origin, rows `x = -15 .. -1` and `x = 1 .. 15`. -/
def c5Stations : List Station :=
  ((List.range 15).map fun i => rowStation (Int.ofNat i + 1)) ++
    ((List.range 15).map fun i => rowStation (-(Int.ofNat i) - 1))

/-- The anchor at the origin for the saturated-row configuration. -/
def c5Anchor : Station := ⟨"s", "s", 0, 0, []⟩

end Metro

/-! ### Dictionary lemmas -/

namespace Metro

theorem dictGet_eq_none_iff {α : Type} (d : List (String × α)) (k : String) :
    dictGet d k = none ↔ k ∉ keysOf d := by
  induction d with
  | nil => simp [dictGet, keysOf]
  | cons kv rest ih =>
    obtain ⟨k', v⟩ := kv
    by_cases h : k' = k
    · subst h
      simp [dictGet, keysOf]
    · simp [dictGet, keysOf, h, Ne.symm h] at ih ⊢
      exact ih

theorem dictGet_mem {α : Type} (d : List (String × α)) (k : String) (v : α)
    (h : dictGet d k = some v) : (k, v) ∈ d := by
  induction d with
  | nil => simp [dictGet] at h
  | cons kv rest ih =>
    obtain ⟨k', v'⟩ := kv
    by_cases hk : k' = k
    · subst hk
      simp [dictGet] at h
      simp [h]
    · simp [dictGet, hk] at h
      exact List.mem_cons_of_mem _ (ih h)

theorem mem_keysOf_dictInsert {α : Type} (d : List (String × α)) (k : String) (v : α)
    (a : String) : a ∈ keysOf (dictInsert d k v) ↔ a ∈ keysOf d ∨ a = k := by
  induction d with
  | nil => simp [dictInsert, keysOf]
  | cons kv rest ih =>
    obtain ⟨k', v'⟩ := kv
    by_cases hk : k' = k
    · subst hk
      simp [dictInsert, keysOf]
      tauto
    · simp [dictInsert, keysOf, hk] at ih ⊢
      tauto

end Metro

/-! ### Bounding-box and spacing lemmas -/

namespace Metro

theorem foldl_max_init (l : List Int) : ∀ b : Int, b ≤ l.foldl max b := by
  induction l with
  | nil => simp
  | cons a l ih =>
    intro b
    exact le_trans (le_max_left b a) (ih (max b a))

theorem foldl_max_mem (l : List Int) : ∀ (b a : Int), a ∈ l → a ≤ l.foldl max b := by
  induction l with
  | nil => simp
  | cons x l ih =>
    intro b a ha
    rcases List.mem_cons.mp ha with h | h
    · subst h
      exact le_trans (le_max_right b a) (foldl_max_init l _)
    · exact ih _ a h

theorem le_maxXOf (stations : List Station) (s : Station) (h : s ∈ stations) :
    s.x ≤ maxXOf stations := by
  unfold maxXOf listMaxD
  cases stations with
  | nil => cases h
  | cons a rest =>
    simp only [List.map_cons]
    rcases List.mem_cons.mp h with h | h
    · subst h
      exact foldl_max_init _ _
    · exact foldl_max_mem _ _ _ (List.mem_map_of_mem _ h)

theorem le_maxYOf (stations : List Station) (s : Station) (h : s ∈ stations) :
    s.y ≤ maxYOf stations := by
  unfold maxYOf listMaxD
  cases stations with
  | nil => cases h
  | cons a rest =>
    simp only [List.map_cons]
    rcases List.mem_cons.mp h with h | h
    · subst h
      exact foldl_max_init _ _
    · exact foldl_max_mem _ _ _ (List.mem_map_of_mem _ h)

/-- Over integer coordinates, every clause of the spacing rule collapses to
exact cell equality. -/
theorem conflictClause_iff (s : Station) (x y : Int) :
    ((((s.x - x).natAbs = 0 && (s.y - y).natAbs = 0) ||
      ((s.y - y).natAbs = 0 && (s.x - x).natAbs < 1) ||
      ((s.x - x).natAbs = 0 && (s.y - y).natAbs < 1)) = true) ↔ (s.x = x ∧ s.y = y) := by
  simp only [Bool.or_eq_true, Bool.and_eq_true, decide_eq_true_eq, Int.natAbs_eq_zero,
    sub_eq_zero, Nat.lt_one_iff]
  tauto

theorem hasSpacingConflict_eq_false_iff (stations : List Station) (x y : Int) :
    hasSpacingConflict stations x y = false ↔ ∀ s ∈ stations, ¬(s.x = x ∧ s.y = y) := by
  unfold hasSpacingConflict
  rw [List.any_eq_false]
  constructor
  · intro h s hs
    have := h s hs
    rw [conflictClause_iff] at this
    exact this
  · intro h s hs
    rw [conflictClause_iff]
    exact h s hs

theorem no_conflict_at_corner (stations : List Station) :
    hasSpacingConflict stations (maxXOf stations + 1) (maxYOf stations + 1) = false := by
  rw [hasSpacingConflict_eq_false_iff]
  intro s hs hxy
  have := le_maxXOf stations s hs
  omega

end Metro

/-! ### Coordinate-planner lemmas -/

namespace Metro

theorem diag_find?_head (stations : List Station) :
    (diagCandidates (maxXOf stations) (maxYOf stations)).find?
        (fun c => !hasSpacingConflict stations c.1 c.2) =
      some (maxXOf stations + 1, maxYOf stations + 1) := by
  have hhead : diagCandidates (maxXOf stations) (maxYOf stations) =
      (maxXOf stations + 1, maxYOf stations + 1) ::
        ((List.range 18).map Nat.succ).map
          (fun d => (maxXOf stations + (Int.ofNat d + 1), maxYOf stations + (Int.ofNat d + 1))) := by
    unfold diagCandidates
    rw [show (19 : Nat) = 18 + 1 from rfl, List.range_succ_eq_map, List.map_cons]
    norm_num
  rw [hhead, List.find?_cons_of_pos]
  simp [no_conflict_at_corner]

/-- The planner always succeeds, and its result never conflicts with an
existing station.  (The first diagonal fallback candidate sits strictly
outside the bounding box, so it is always free.) -/
theorem planCoordinates_total (stations : List Station) (anchor : Option Station)
    (orientation : Orientation) (direction : Int) :
    ∃ c, planCoordinates stations anchor orientation direction = .ok c ∧
      hasSpacingConflict stations c.1 c.2 = false := by
  unfold planCoordinates
  cases hfind : (localCandidates (planBase stations anchor).1 (planBase stations anchor).2
      orientation (planPreferred direction) (planStartOffset anchor)).find?
      (fun c => !hasSpacingConflict stations c.1 c.2) with
  | some c =>
    refine ⟨c, by simp [hfind], ?_⟩
    have := List.find?_some hfind
    simpa using this
  | none =>
    refine ⟨(maxXOf stations + 1, maxYOf stations + 1), ?_, no_conflict_at_corner stations⟩
    simp [hfind, diag_find?_head]

theorem planCoordinates_ok_no_conflict (stations : List Station) (anchor : Option Station)
    (orientation : Orientation) (direction : Int) (c : Int × Int)
    (h : planCoordinates stations anchor orientation direction = .ok c) :
    hasSpacingConflict stations c.1 c.2 = false := by
  obtain ⟨c', hc', hn⟩ := planCoordinates_total stations anchor orientation direction
  rw [h] at hc'
  cases hc'
  exact hn

theorem planCoordinates_never_errors (stations : List Station) (anchor : Option Station)
    (orientation : Orientation) (direction : Int) (e : StoreError) :
    planCoordinates stations anchor orientation direction ≠ .error e := by
  obtain ⟨c, hc, -⟩ := planCoordinates_total stations anchor orientation direction
  rw [hc]
  simp

end Metro

/-! ### Identifier-allocation lemmas -/

namespace Metro

theorem digitsVal_digitsLEAux : ∀ (fuel n : Nat), n < fuel →
    digitsVal (digitsLEAux n fuel) = n := by
  intro fuel
  induction fuel with
  | zero => intro n h; omega
  | succ fuel ih =>
    intro n h
    by_cases h10 : n < 10
    · simp [digitsLEAux, h10, digitsVal]
    · have hdiv : n / 10 < fuel := by
        have h1 : n / 10 < n := Nat.div_lt_self (by omega) (by omega)
        omega
      simp only [digitsLEAux, if_neg h10, digitsVal, ih _ hdiv]
      omega

theorem digitsLEAux_lt_ten : ∀ (fuel n d : Nat), d ∈ digitsLEAux n fuel → d < 10 := by
  intro fuel
  induction fuel with
  | zero => intro n d h; simp [digitsLEAux] at h
  | succ fuel ih =>
    intro n d h
    by_cases h10 : n < 10
    · simp [digitsLEAux, h10] at h
      omega
    · simp only [digitsLEAux, if_neg h10, List.mem_cons] at h
      rcases h with h | h
      · omega
      · exact ih _ _ h

theorem digitsVal_digitsLE (n : Nat) : digitsVal (digitsLE n) = n :=
  digitsVal_digitsLEAux _ _ (Nat.lt_succ_self n)

theorem digitChar_inj_lt : ∀ d1 < 10, ∀ d2 < 10, digitChar d1 = digitChar d2 → d1 = d2 := by
  decide

theorem map_digitChar_inj : ∀ (l1 l2 : List Nat), (∀ d ∈ l1, d < 10) → (∀ d ∈ l2, d < 10) →
    l1.map digitChar = l2.map digitChar → l1 = l2 := by
  intro l1
  induction l1 with
  | nil =>
    intro l2 _ _ h
    cases l2 with
    | nil => rfl
    | cons b l2' => simp at h
  | cons a l ih =>
    intro l2 h1 h2 h
    cases l2 with
    | nil => simp at h
    | cons b l2' =>
      simp only [List.map_cons, List.cons.injEq] at h
      have ha := h1 a (by simp)
      have hb := h2 b (by simp)
      have hab := digitChar_inj_lt a ha b hb h.1
      subst hab
      rw [ih l2' (fun d hd => h1 d (by simp [hd])) (fun d hd => h2 d (by simp [hd])) h.2]

theorem stringDataInj (s t : String) (h : s.data = t.data) : s = t := by
  cases s
  cases t
  exact congrArg String.mk h

theorem natRepr_data_inj (m n : Nat) (h : (natRepr m).data = (natRepr n).data) : m = n := by
  unfold natRepr at h
  simp only [String.mk] at h
  have hrev : (digitsLE m).reverse.map digitChar = (digitsLE n).reverse.map digitChar := h
  have hdig : (digitsLE m).reverse = (digitsLE n).reverse :=
    map_digitChar_inj _ _
      (fun d hd => digitsLEAux_lt_ten _ _ _ (List.mem_reverse.mp hd))
      (fun d hd => digitsLEAux_lt_ten _ _ _ (List.mem_reverse.mp hd)) hrev
  have : digitsLE m = digitsLE n := List.reverse_inj.mp hdig
  have hm := digitsVal_digitsLE m
  rw [this, digitsVal_digitsLE n] at hm
  omega

theorem idCandidate_inj (base : String) (c1 c2 : Nat)
    (h : idCandidate base c1 = idCandidate base c2) : c1 = c2 := by
  unfold idCandidate at h
  have hdata := congrArg String.data h
  simp only [String.data_append] at hdata
  have := List.append_cancel_left hdata
  exact natRepr_data_inj c1 c2 this

theorem exists_free_counter (keys : List String) (base : String) :
    ∃ j, j < keys.length + 1 ∧ idCandidate base (2 + j) ∉ keys := by
  by_contra hcon
  push_neg at hcon
  have hinj : Function.Injective fun j => idCandidate base (2 + j) := by
    intro j1 j2 hj
    have := idCandidate_inj base _ _ hj
    omega
  have hnd : ((List.range (keys.length + 1)).map fun j => idCandidate base (2 + j)).Nodup :=
    (List.nodup_range _).map hinj
  have hsub : ((List.range (keys.length + 1)).map fun j => idCandidate base (2 + j)) ⊆ keys := by
    intro c hc
    obtain ⟨j, hj, rfl⟩ := List.mem_map.mp hc
    exact hcon j (List.mem_range.mp hj)
  have hle := (hnd.subperm hsub).length_le
  simp [List.length_map, List.length_range] at hle

theorem nextStationIdAux_spec (keys : List String) (base : String) :
    ∀ (fuel counter : Nat),
      (∃ j, j < fuel ∧ idCandidate base (counter + j) ∉ keys) →
      ∃ j0, idCandidate base (counter + j0) ∉ keys ∧
        (∀ j, j < j0 → idCandidate base (counter + j) ∈ keys) ∧
        nextStationIdAux keys base counter fuel = idCandidate base (counter + j0) := by
  intro fuel
  induction fuel with
  | zero =>
    intro counter h
    obtain ⟨j, hj, -⟩ := h
    omega
  | succ fuel ih =>
    intro counter h
    obtain ⟨j, hj, hfree⟩ := h
    by_cases hmem : idCandidate base counter ∈ keys
    · have hj0 : j ≠ 0 := by
        intro h0
        subst h0
        simp only [Nat.add_zero] at hfree
        exact hfree hmem
      have hex : ∃ j1, j1 < fuel ∧ idCandidate base (counter + 1 + j1) ∉ keys := by
        refine ⟨j - 1, by omega, ?_⟩
        rw [show counter + 1 + (j - 1) = counter + j from by omega]
        exact hfree
      obtain ⟨j0, hfree0, hall, heq⟩ := ih (counter + 1) hex
      refine ⟨j0 + 1, ?_, ?_, ?_⟩
      · rw [show counter + (j0 + 1) = counter + 1 + j0 from by omega]
        exact hfree0
      · intro j1 hj1
        cases j1 with
        | zero => simpa using hmem
        | succ j1 =>
          rw [show counter + (j1 + 1) = counter + 1 + j1 from by omega]
          exact hall j1 (by omega)
      · simp only [nextStationIdAux, if_pos hmem]
        rw [heq, show counter + 1 + j0 = counter + (j0 + 1) from by omega]
    · refine ⟨0, by simpa using hmem, by omega, ?_⟩
      simp only [nextStationIdAux, if_neg hmem, Nat.add_zero]

theorem nextStationId_spec (keys : List String) (stationName : String) :
    (normalizeId stationName "station" ∉ keys →
      nextStationId keys stationName = normalizeId stationName "station") ∧
    (normalizeId stationName "station" ∈ keys →
      ∃ k, 2 ≤ k ∧
        nextStationId keys stationName = idCandidate (normalizeId stationName "station") k ∧
        idCandidate (normalizeId stationName "station") k ∉ keys ∧
        ∀ j, 2 ≤ j → j < k → idCandidate (normalizeId stationName "station") j ∈ keys) := by
  constructor
  · intro h
    simp only [nextStationId, if_neg h]
  · intro h
    obtain ⟨j, hj, hfree⟩ := exists_free_counter keys (normalizeId stationName "station")
    obtain ⟨j0, hfree0, hall, heq⟩ :=
      nextStationIdAux_spec keys (normalizeId stationName "station") (keys.length + 2) 2
        ⟨j, by omega, hfree⟩
    refine ⟨2 + j0, by omega, ?_, hfree0, ?_⟩
    · simp only [nextStationId, if_pos h]
      exact heq
    · intro j1 h2 hlt
      have := hall (j1 - 2) (by omega)
      rwa [show 2 + (j1 - 2) = j1 from by omega] at this

theorem nextStationId_not_mem (keys : List String) (stationName : String) :
    nextStationId keys stationName ∉ keys := by
  by_cases h : normalizeId stationName "station" ∈ keys
  · obtain ⟨k, -, heq, hfree, -⟩ := (nextStationId_spec keys stationName).2 h
    rw [heq]
    exact hfree
  · rw [(nextStationId_spec keys stationName).1 h]
    exact h

end Metro

/-! ### Load-time validation lemmas -/

namespace Metro

theorem specTooClose_iff (a b : Station) :
    specTooClose a b = true ↔ (a.x = b.x ∧ a.y = b.y) := by
  unfold specTooClose
  exact conflictClause_iff a b.x b.y

theorem specTooClose_eq_false_iff (a b : Station) :
    specTooClose a b = false ↔ ¬(a.x = b.x ∧ a.y = b.y) := by
  rw [← specTooClose_iff]
  cases h : specTooClose a b <;> simp [h]

theorem validateSpacingAux_eq_spec :
    ∀ (l : List Station) (occupied : List (Int × Int)) (seen : List Station),
      (∀ c, c ∈ occupied ↔ ∃ t ∈ seen, (t.x, t.y) = c) →
      validateSpacingAux occupied l = firstConflictSpecAux seen l := by
  intro l
  induction l with
  | nil => intro occupied seen _; rfl
  | cons s rest ih =>
    intro occupied seen h
    by_cases hc : (s.x, s.y) ∈ occupied
    · have hany : seen.any (fun t => specTooClose t s) = true := by
        obtain ⟨t, ht, hco⟩ := (h _).mp hc
        rw [List.any_eq_true]
        refine ⟨t, ht, ?_⟩
        rw [specTooClose_iff]
        exact ⟨congrArg Prod.fst hco, congrArg Prod.snd hco⟩
      simp [validateSpacingAux, hc, firstConflictSpecAux, hany]
    · have hany : seen.any (fun t => specTooClose t s) = false := by
        rw [List.any_eq_false]
        intro t ht hts
        rw [specTooClose_iff] at hts
        exact hc ((h _).mpr ⟨t, ht, by rw [hts.1, hts.2]⟩)
      simp only [validateSpacingAux, if_neg hc, firstConflictSpecAux, hany,
        Bool.false_eq_true, if_false]
      refine ih _ _ ?_
      intro c
      constructor
      · intro hco
        rcases List.mem_cons.mp hco with rfl | hco1
        · exact ⟨s, by simp, rfl⟩
        · obtain ⟨t, ht, hco2⟩ := (h c).mp hco1
          exact ⟨t, by simp [ht], hco2⟩
      · rintro ⟨t, ht, hco⟩
        rcases List.mem_append.mp ht with ht1 | ht1
        · exact List.mem_cons_of_mem _ ((h c).mpr ⟨t, ht1, hco⟩)
        · have hts : t = s := by simpa using ht1
          subst hts
          exact List.mem_cons.mpr (Or.inl hco.symm)

theorem validateSpacing_eq_spec (m : MetroMap) :
    validateSpacing m = firstConflictSpec m.stations := by
  unfold validateSpacing firstConflictSpec
  exact validateSpacingAux_eq_spec m.stations [] [] (by simp)

theorem validateSpacingAux_eq_none :
    ∀ (l : List Station) (occupied : List (Int × Int)),
      validateSpacingAux occupied l = none ↔
        ((l.map fun s => (s.x, s.y)).Nodup ∧ ∀ s ∈ l, (s.x, s.y) ∉ occupied) := by
  intro l
  induction l with
  | nil => simp [validateSpacingAux]
  | cons s rest ih =>
    intro occupied
    by_cases hc : (s.x, s.y) ∈ occupied
    · simp only [validateSpacingAux, if_pos hc]
      constructor
      · intro h
        cases h
      · rintro ⟨-, hall⟩
        exact absurd hc (hall s (List.mem_cons_self s rest))
    · simp only [validateSpacingAux, if_neg hc]
      rw [ih]
      constructor
      · rintro ⟨hnd, hall⟩
        refine ⟨?_, ?_⟩
        · rw [List.map_cons, List.nodup_cons]
          refine ⟨?_, hnd⟩
          intro hmem
          obtain ⟨t, ht, hco⟩ := List.mem_map.mp hmem
          exact (hall t ht) (by rw [hco]; exact List.mem_cons_self _ _)
        · intro t ht
          rcases List.mem_cons.mp ht with rfl | ht'
          · exact hc
          · intro hto
            exact (hall t ht') (List.mem_cons_of_mem _ hto)
      · rintro ⟨hnd, hall⟩
        rw [List.map_cons, List.nodup_cons] at hnd
        refine ⟨hnd.2, ?_⟩
        intro t ht
        simp only [List.mem_cons]
        rintro (hco | hco)
        · exact hnd.1 (by rw [← hco]; exact List.mem_map_of_mem _ ht)
        · exact (hall t (List.mem_cons_of_mem _ ht)) hco

theorem validateSpacing_eq_none_iff (m : MetroMap) :
    validateSpacing m = none ↔ (coords m).Nodup := by
  unfold validateSpacing coords
  rw [validateSpacingAux_eq_none]
  simp

theorem pairwise_iff_coords_nodup (l : List Station) :
    (l.map fun s => (s.x, s.y)).Nodup ↔
      List.Pairwise (fun a b => specTooClose a b = false) l := by
  unfold List.Nodup
  rw [List.pairwise_map]
  constructor
  · intro h
    refine h.imp ?_
    intro a b hne
    rw [specTooClose_eq_false_iff]
    intro ⟨hx, hy⟩
    exact hne (by rw [hx, hy])
  · intro h
    refine h.imp ?_
    intro a b hts
    rw [specTooClose_eq_false_iff] at hts
    intro hco
    exact hts ⟨congrArg Prod.fst hco, congrArg Prod.snd hco⟩

end Metro

/-! ### Store-level lemmas -/

namespace Metro

theorem resolveLine_none (s : MetroMapStore) (lineId nid : String)
    (h : resolveLine s lineId nid = none) : dictGet s.lineLookup nid = none := by
  unfold resolveLine at h
  cases h1 : dictGet s.lineLookup lineId with
  | some l => rw [h1] at h; cases h
  | none =>
    rw [h1] at h
    cases h2 : dictGet s.lineLookup nid with
    | some l => rw [h2] at h; simp at h
    | none => rfl

theorem ensureLine_cases (s : MetroMapStore) (a : AddArgs) (nid : String) :
    (resolveLine s a.lineId nid = some (ensureLine s a nid).2 ∧ (ensureLine s a nid).1 = s) ∨
    (resolveLine s a.lineId nid = none ∧
      (ensureLine s a nid).2.stations = [] ∧
      (ensureLine s a nid).2.id = nid ∧
      (ensureLine s a nid).1.map.stations = s.map.stations ∧
      (ensureLine s a nid).1.map.lines = s.map.lines ++ [(ensureLine s a nid).2] ∧
      (ensureLine s a nid).1.stationLookup = s.stationLookup ∧
      (ensureLine s a nid).1.lineLookup = dictInsert s.lineLookup nid (ensureLine s a nid).2) := by
  unfold ensureLine
  cases h : resolveLine s a.lineId nid with
  | some l => exact Or.inl ⟨rfl, rfl⟩
  | none => exact Or.inr ⟨rfl, rfl, rfl, rfl, rfl, rfl, rfl⟩

theorem ensureLine_stations_eq (s : MetroMapStore) (a : AddArgs) (nid : String) :
    (ensureLine s a nid).1.map.stations = s.map.stations := by
  rcases ensureLine_cases s a nid with ⟨-, heq⟩ | ⟨-, -, -, hst, -, -, -⟩
  · rw [heq]
  · exact hst

theorem ensureLine_stationLookup_eq (s : MetroMapStore) (a : AddArgs) (nid : String) :
    (ensureLine s a nid).1.stationLookup = s.stationLookup := by
  rcases ensureLine_cases s a nid with ⟨-, heq⟩ | ⟨-, -, -, -, -, hslk, -⟩
  · rw [heq]
  · exact hslk

theorem ensureLine_nonempty_eq (s : MetroMapStore) (a : AddArgs) (nid : String)
    (h : (ensureLine s a nid).2.stations ≠ []) : (ensureLine s a nid).1 = s := by
  rcases ensureLine_cases s a nid with ⟨-, heq⟩ | ⟨-, hstat, -, -, -, -, -⟩
  · exact heq
  · exact absurd hstat h

theorem ensureLine_invariant (s : MetroMapStore) (a : AddArgs) (nid : String)
    (inv : Invariant s) : Invariant (ensureLine s a nid).1 := by
  rcases ensureLine_cases s a nid with ⟨-, heq⟩ | ⟨hres, hstat, hid, hst, hlines, hslk, hllk⟩
  · rwa [heq]
  · have hnid : nid ∉ keysOf s.lineLookup :=
      (dictGet_eq_none_iff _ _).mp (resolveLine_none _ _ _ hres)
    have hnot : nid ∉ lineIds s.map := by
      intro hmem
      obtain ⟨l, hl, hlid⟩ := List.mem_map.mp hmem
      exact hnid (hlid ▸ inv.line_keys l hl)
    constructor
    · unfold coords
      rw [hst]
      exact inv.coords_nodup
    · unfold stationIds
      rw [hst]
      exact inv.station_ids_nodup
    · unfold lineIds
      rw [hlines, List.map_append, List.map_singleton, hid, List.nodup_append]
      refine ⟨inv.line_ids_nodup, List.nodup_singleton _, ?_⟩
      intro x hx hx1
      have hxe : x = nid := by simpa using hx1
      subst hxe
      exact hnot hx
    · intro st hst1
      rw [hslk]
      rw [hst] at hst1
      exact inv.station_keys st hst1
    · intro l hl
      rw [hllk]
      rw [hlines] at hl
      rcases List.mem_append.mp hl with hl1 | hl1
      · exact (mem_keysOf_dictInsert _ _ _ _).mpr (Or.inl (inv.line_keys l hl1))
      · have hle : l = (ensureLine s a nid).2 := by simpa using hl1
        subst hle
        exact (mem_keysOf_dictInsert _ _ _ _).mpr (Or.inr hid)

theorem replaceLine_map_id (lines : List Line) (targetId : String) (newLine : Line)
    (h : newLine.id = targetId) :
    (commitStation.replaceLine lines targetId newLine).map (·.id) = lines.map (·.id) := by
  induction lines with
  | nil => rfl
  | cons l rest ih =>
    by_cases hl : l.id = targetId
    · simp [commitStation.replaceLine, hl, h]
    · simp [commitStation.replaceLine, hl, ih]

theorem commitStation_invariant (s1 : MetroMapStore) (line : Line) (idx : Nat)
    (sid sname : String) (x y : Int) (inv : Invariant s1)
    (hsid : sid ∉ keysOf s1.stationLookup)
    (hxy : hasSpacingConflict s1.map.stations x y = false) :
    Invariant (commitStation s1 line idx sid sname x y).store := by
  have hfree := (hasSpacingConflict_eq_false_iff s1.map.stations x y).mp hxy
  have hsid2 : sid ∉ stationIds s1.map := by
    intro hmem
    obtain ⟨st, hstm, hstid⟩ := List.mem_map.mp hmem
    exact hsid (hstid ▸ inv.station_keys st hstm)
  constructor
  · simp only [coords, commitStation, List.map_append, List.map_singleton]
    rw [List.nodup_append]
    refine ⟨inv.coords_nodup, List.nodup_singleton _, ?_⟩
    intro c hc hc1
    have hce : c = (x, y) := by simpa using hc1
    subst hce
    obtain ⟨st, hstm, hco⟩ := List.mem_map.mp hc
    exact hfree st hstm ⟨congrArg Prod.fst hco, congrArg Prod.snd hco⟩
  · simp only [stationIds, commitStation, List.map_append, List.map_singleton]
    rw [List.nodup_append]
    refine ⟨inv.station_ids_nodup, List.nodup_singleton _, ?_⟩
    intro i hi hi1
    have hie : i = sid := by simpa using hi1
    subst hie
    exact hsid2 hi
  · simp only [lineIds, commitStation]
    rw [replaceLine_map_id s1.map.lines line.id
      { line with stations := insertAt line.stations idx sid } rfl]
    exact inv.line_ids_nodup
  · intro st hst
    simp only [commitStation] at hst ⊢
    rcases List.mem_append.mp hst with hst1 | hst1
    · exact (mem_keysOf_dictInsert _ _ _ _).mpr (Or.inl (inv.station_keys st hst1))
    · have hste : st = ⟨sid, sname, x, y, [line.id]⟩ := by simpa using hst1
      subst hste
      exact (mem_keysOf_dictInsert _ _ _ _).mpr (Or.inr rfl)
  · intro l hl
    simp only [commitStation] at hl ⊢
    have hlid := List.mem_map_of_mem (fun lx => lx.id) hl
    rw [replaceLine_map_id s1.map.lines line.id
      { line with stations := insertAt line.stations idx sid } rfl] at hlid
    obtain ⟨l0, hl0, hl0id⟩ := List.mem_map.mp hlid
    have hk := inv.line_keys l0 hl0
    rw [show l0.id = l.id from hl0id] at hk
    exact (mem_keysOf_dictInsert _ _ _ _).mpr (Or.inl hk)

end Metro

/-! ### add_station case analysis -/

namespace Metro

theorem resolveAnchor_empty_ok (s1 : MetroMapStore) (line : Line) (after : Option String)
    (h : line.stations = []) : resolveAnchor s1 line after = .ok (0, none) := by
  unfold resolveAnchor
  rw [h]
  rfl

theorem resolveAnchor_error_nonempty (s1 : MetroMapStore) (line : Line)
    (after : Option String) (e : StoreError)
    (h : resolveAnchor s1 line after = .error e) : line.stations ≠ [] := by
  intro hemp
  rw [resolveAnchor_empty_ok s1 line after hemp] at h
  cases h

theorem inferOrientation_two_le_of_error (lookup : List (String × Station)) (line : Line)
    (idx : Nat) (e : StoreError) (h : inferOrientation lookup line idx = .error e) :
    2 ≤ line.stations.length := by
  by_contra hlt
  unfold inferOrientation at h
  rw [if_neg hlt] at h
  cases h

theorem addStation_error_eq (s : MetroMapStore) (a : AddArgs) (e : StoreError)
    (serr : MetroMapStore) (h : addStation s a = .error (e, serr)) : serr = s := by
  simp only [addStation] at h
  split at h
  next e1 heq =>
    simp only [Except.error.injEq, Prod.mk.injEq] at h
    rw [← h.2]
    exact ensureLine_nonempty_eq s a _ (resolveAnchor_error_nonempty _ _ _ _ heq)
  next i p heq =>
    split at h
    next e2 heq2 =>
      simp only [Except.error.injEq, Prod.mk.injEq] at h
      rw [← h.2]
      apply ensureLine_nonempty_eq
      have h2 := inferOrientation_two_le_of_error _ _ _ _ heq2
      intro hemp
      rw [hemp] at h2
      simp at h2
    next o d heq2 =>
      split at h
      next e3 heq3 => exact absurd heq3 (planCoordinates_never_errors _ _ _ _ _)
      next c heq3 => cases h

theorem addStation_ok_shape (s : MetroMapStore) (a : AddArgs) (r : AddResult)
    (h : addStation s a = .ok r) :
    ∃ insertionIndex anchor orientation direction c,
      resolveAnchor (ensureLine s a (normalizeId a.lineId "line")).1
          (ensureLine s a (normalizeId a.lineId "line")).2 a.afterStationId =
        .ok (insertionIndex, anchor) ∧
      planCoordinates (ensureLine s a (normalizeId a.lineId "line")).1.map.stations
          anchor orientation direction = .ok c ∧
      r = commitStation (ensureLine s a (normalizeId a.lineId "line")).1
          (ensureLine s a (normalizeId a.lineId "line")).2 insertionIndex
          (nextStationId (keysOf (ensureLine s a (normalizeId a.lineId "line")).1.stationLookup)
            a.stationName)
          a.stationName c.1 c.2 := by
  simp only [addStation] at h
  split at h
  next e1 heq => cases h
  next i p heq =>
    split at h
    next e2 heq2 => cases h
    next o d heq2 =>
      split at h
      next e3 heq3 => cases h
      next c heq3 =>
        simp only [Except.ok.injEq] at h
        exact ⟨i, p, o, d, c, heq, heq3, h.symm⟩

theorem addStation_invariant (s : MetroMapStore) (a : AddArgs) (inv : Invariant s) :
    Invariant (addOutcomeStore s a) := by
  unfold addOutcomeStore
  cases h : addStation s a with
  | error p =>
    obtain ⟨e1, s1⟩ := p
    rw [addStation_error_eq s a e1 s1 h]
    exact inv
  | ok r =>
    obtain ⟨i, anchor, o, d, c, -, hpc, hr⟩ := addStation_ok_shape s a r h
    rw [hr]
    exact commitStation_invariant _ _ _ _ _ _ _
      (ensureLine_invariant s a _ inv)
      (nextStationId_not_mem _ _)
      (planCoordinates_ok_no_conflict _ _ _ _ _ hpc)

theorem runAdds_invariant (calls : List AddArgs) :
    ∀ s : MetroMapStore, Invariant s → Invariant (runAdds s calls) := by
  induction calls with
  | nil => intro s inv; exact inv
  | cons a rest ih =>
    intro s inv
    have hstep := addStation_invariant s a inv
    unfold addOutcomeStore at hstep
    unfold runAdds
    cases h : addStation s a with
    | ok r =>
      rw [h] at hstep
      exact ih r.store hstep
    | error p =>
      obtain ⟨e1, s1⟩ := p
      rw [h] at hstep
      exact ih s1 hstep

theorem foldl_dictInsert_keys {α : Type} (key : α → String) (l : List α) :
    ∀ (d : List (String × α)) (x : α), x ∈ l ∨ key x ∈ keysOf d →
      key x ∈ keysOf (l.foldl (fun d y => dictInsert d (key y) y) d) := by
  induction l with
  | nil =>
    intro d x h
    rcases h with h | h
    · cases h
    · simpa using h
  | cons a rest ih =>
    intro d x h
    simp only [List.foldl_cons]
    apply ih
    rcases h with h | h
    · rcases List.mem_cons.mp h with rfl | h1
      · exact Or.inr ((mem_keysOf_dictInsert _ _ _ _).mpr (Or.inr rfl))
      · exact Or.inl h1
    · exact Or.inr ((mem_keysOf_dictInsert _ _ _ _).mpr (Or.inl h))

theorem buildStationLookup_keys (stations : List Station) (st : Station) (h : st ∈ stations) :
    st.id ∈ keysOf (buildStationLookup stations) :=
  foldl_dictInsert_keys (fun s0 => s0.id) stations [] st (Or.inl h)

theorem buildLineLookup_keys (lines : List Line) (l : Line) (h : l ∈ lines) :
    l.id ∈ keysOf (buildLineLookup lines) :=
  foldl_dictInsert_keys (fun l0 => l0.id) lines [] l (Or.inl h)

theorem updateMap_ok_shape (m : MetroMap) (s : MetroMapStore) (h : updateMap m = .ok s) :
    s = ⟨m, buildStationLookup m.stations, buildLineLookup m.lines⟩ ∧
      validateSpacing m = none := by
  unfold updateMap at h
  split at h
  next x y heq => cases h
  next heq =>
    simp only [Except.ok.injEq] at h
    exact ⟨h.symm, heq⟩

theorem updateMap_invariant (m : MetroMap) (s : MetroMapStore) (h : updateMap m = .ok s)
    (h1 : (stationIds m).Nodup) (h2 : (lineIds m).Nodup) : Invariant s := by
  obtain ⟨hs, hv⟩ := updateMap_ok_shape m s h
  subst hs
  constructor
  · exact (validateSpacing_eq_none_iff m).mp hv
  · exact h1
  · exact h2
  · intro st hst
    exact buildStationLookup_keys m.stations st hst
  · intro l hl
    exact buildLineLookup_keys m.lines l hl

end Metro

/-! ### Claim theorems: uniqueness, atomicity, planner -/

namespace Metro

/-- Claim C1, counterexample: a map holding two distinct stations that share
the id "a" (on different cells) loads successfully, and after the empty
sequence of `add_station` calls the station ids of the resulting map are not
pairwise distinct — so the claim fails for a loaded map whose ids are not
already distinct. -/
theorem uniqueness_counterexample :
    updateMap dupMap =
      .ok ⟨dupMap, buildStationLookup dupMap.stations, buildLineLookup dupMap.lines⟩ ∧
    ¬ (stationIds (runAdds
        ⟨dupMap, buildStationLookup dupMap.stations, buildLineLookup dupMap.lines⟩ []).map).Nodup :=
  ⟨by decide, by decide⟩

/-- Claim C1 (amended): for every sequence of `add_station` calls starting
from a successfully loaded map whose station ids and line ids are pairwise
distinct, the resulting map has pairwise-distinct occupied cells,
pairwise-distinct station ids, and pairwise-distinct line ids. -/
theorem add_station_uniqueness (m : MetroMap) (s : MetroMapStore)
    (hload : updateMap m = .ok s)
    (hsids : (stationIds m).Nodup) (hlids : (lineIds m).Nodup) (calls : List AddArgs) :
    (coords (runAdds s calls).map).Nodup ∧
    (stationIds (runAdds s calls).map).Nodup ∧
    (lineIds (runAdds s calls).map).Nodup := by
  have inv := runAdds_invariant calls s (updateMap_invariant m s hload hsids hlids)
  exact ⟨inv.coords_nodup, inv.station_ids_nodup, inv.line_ids_nodup⟩

/-- Claim C1, witness: the amended claim evaluated on the empty starter map
followed by one `add_station` call. -/
theorem add_station_uniqueness_witness :
    (coords (runAdds store0 [⟨"red", "Central", none, none, none⟩]).map).Nodup ∧
    (stationIds (runAdds store0 [⟨"red", "Central", none, none, none⟩]).map).Nodup ∧
    (lineIds (runAdds store0 [⟨"red", "Central", none, none, none⟩]).map).Nodup :=
  add_station_uniqueness map0 store0 (by decide) (by decide) (by decide)
    [⟨"red", "Central", none, none, none⟩]

/-- Claim C2: `add_station` is atomic — whenever it raises, the store state
carried out of the raise is exactly the pre-call state; no partial mutation
(in particular no newly created empty line) survives. -/
theorem add_station_atomicity (s : MetroMapStore) (a : AddArgs) (e : StoreError)
    (serr : MetroMapStore) (h : addStation s a = .error (e, serr)) : serr = s :=
  addStation_error_eq s a e serr h

/-- Claim C2, witness: an `add_station` call with an unknown
`after_station_id` on a non-empty line raises and leaves the store intact. -/
theorem add_station_atomicity_witness :
    addOutcomeStore store2w ⟨"red", "B", none, none, some "ghost"⟩ = store2w := by
  have hne : exceptIsOk (addStation store2w ⟨"red", "B", none, none, some "ghost"⟩) = false := by
    decide
  unfold addOutcomeStore
  cases h : addStation store2w ⟨"red", "B", none, none, some "ghost"⟩ with
  | ok r =>
    rw [h] at hne
    simp [exceptIsOk] at hne
  | error p =>
    obtain ⟨e, serr⟩ := p
    exact add_station_atomicity store2w ⟨"red", "B", none, none, some "ghost"⟩ e serr h

/-- Claim C9: the placement-exhaustion branch is unreachable — the first
diagonal fallback cell sits strictly beyond every station on both axes,
never conflicts, and the planner always returns a coordinate. -/
theorem planner_exhaustion_unreachable (stations : List Station) (anchor : Option Station)
    (orientation : Orientation) (direction : Int) :
    hasSpacingConflict stations (maxXOf stations + 1) (maxYOf stations + 1) = false ∧
    (∀ s ∈ stations, s.x ≤ maxXOf stations ∧ s.y ≤ maxYOf stations) ∧
    ∃ c, planCoordinates stations anchor orientation direction = .ok c := by
  refine ⟨no_conflict_at_corner stations, ?_, ?_⟩
  · intro s hs
    exact ⟨le_maxXOf stations s hs, le_maxYOf stations s hs⟩
  · obtain ⟨c, hc, -⟩ := planCoordinates_total stations anchor orientation direction
    exact ⟨c, hc⟩

/-- Claim C9, witness: the planner statement evaluated on a one-station map. -/
theorem planner_exhaustion_unreachable_witness :
    hasSpacingConflict [st6a] (maxXOf [st6a] + 1) (maxYOf [st6a] + 1) = false ∧
    (∀ s ∈ [st6a], s.x ≤ maxXOf [st6a] ∧ s.y ≤ maxYOf [st6a]) ∧
    ∃ c, planCoordinates [st6a] none Orientation.horizontal 1 = .ok c :=
  planner_exhaustion_unreachable [st6a] none Orientation.horizontal 1

/-- Claim C5: when every local-search candidate conflicts, the planner
returns the first diagonal point `(max_x + 1, max_y + 1)`, which is strictly
outside the current bounding box and conflict-free. -/
theorem planner_fallback_correct (stations : List Station) (anchor : Option Station)
    (orientation : Orientation) (direction : Int)
    (hfail : ∀ c ∈ localCandidates (planBase stations anchor).1 (planBase stations anchor).2
        orientation (planPreferred direction) (planStartOffset anchor),
      hasSpacingConflict stations c.1 c.2 = true) :
    planCoordinates stations anchor orientation direction =
      .ok (maxXOf stations + 1, maxYOf stations + 1) ∧
    (∀ s ∈ stations, s.x < maxXOf stations + 1 ∧ s.y < maxYOf stations + 1) ∧
    hasSpacingConflict stations (maxXOf stations + 1) (maxYOf stations + 1) = false := by
  have hnone : (localCandidates (planBase stations anchor).1 (planBase stations anchor).2
      orientation (planPreferred direction) (planStartOffset anchor)).find?
      (fun c => !hasSpacingConflict stations c.1 c.2) = none := by
    rw [List.find?_eq_none]
    intro c hc
    rw [hfail c hc]
    simp
  refine ⟨?_, ?_, no_conflict_at_corner stations⟩
  · simp [planCoordinates, hnone, diag_find?_head]
  · intro s hs
    have hx := le_maxXOf stations s hs
    have hy := le_maxYOf stations s hs
    omega

/-- Claim C5, witness: with rows `x = -15 .. 15` fully occupied around an
anchor at the origin, the local search fails and the planner escapes to
`(16, 1)`, the first diagonal point. -/
theorem planner_fallback_correct_witness :
    planCoordinates c5Stations (some c5Anchor) Orientation.horizontal 1 =
      .ok (maxXOf c5Stations + 1, maxYOf c5Stations + 1) :=
  (planner_fallback_correct c5Stations (some c5Anchor) Orientation.horizontal 1 (by decide)).1

/-- Claim C10: `add_station` only appends — every pre-existing station
survives unchanged, the new station's back-reference is exactly the one
target line, and the set of interchanges is unchanged. -/
theorem add_station_frame (s : MetroMapStore) (a : AddArgs) (r : AddResult)
    (h : addStation s a = .ok r) :
    r.store.map.stations = s.map.stations ++ [r.station] ∧
    r.station.lines = [r.line.id] ∧
    interchanges r.store = interchanges s := by
  obtain ⟨i, anchor, o, d, c, -, hpc, hr⟩ := addStation_ok_shape s a r h
  subst hr
  have hst := ensureLine_stations_eq s a (normalizeId a.lineId "line")
  refine ⟨?_, rfl, ?_⟩
  · simp only [commitStation]
    rw [hst]
  · simp only [interchanges, commitStation, List.filter_append]
    rw [hst]
    simp

/-- Claim C10, witness: the frame property evaluated on the first
`add_station` call of the empty starter map. -/
theorem add_station_frame_witness :
    ∃ r, addStation store0 ⟨"red", "Central", none, none, none⟩ = .ok r ∧
      r.store.map.stations = store0.map.stations ++ [r.station] ∧
      r.station.lines = [r.line.id] ∧
      interchanges r.store = interchanges store0 := by
  have hok : exceptIsOk (addStation store0 ⟨"red", "Central", none, none, none⟩) = true := by
    decide
  cases h : addStation store0 ⟨"red", "Central", none, none, none⟩ with
  | error p =>
    rw [h] at hok
    simp [exceptIsOk] at hok
  | ok r =>
    exact ⟨r, rfl, add_station_frame store0 ⟨"red", "Central", none, none, none⟩ r h⟩

end Metro

/-! ### Claim theorems: load-time validation and orientation -/

namespace Metro

/-- Claim C3: replacing the whole map raises exactly when some pair of
distinct stations is too close in the sense of the spec's SpacingValidator
(over integer grid coordinates), and the error names the coordinates of the
first conflicting pair. -/
theorem load_time_spacing_validation (m : MetroMap) :
    (∀ x y, updateMap m = .error (.spacingConflict x y) ↔
      firstConflictSpec m.stations = some (x, y)) ∧
    ((∃ e, updateMap m = .error e) ↔
      ¬ List.Pairwise (fun a b => specTooClose a b = false) m.stations) := by
  have hspec := validateSpacing_eq_spec m
  constructor
  · intro x y
    unfold updateMap
    cases hv : validateSpacing m with
    | some c =>
      obtain ⟨cx, cy⟩ := c
      rw [hv] at hspec
      rw [← hspec]
      simp only [Except.error.injEq, StoreError.spacingConflict.injEq, Option.some.injEq,
        Prod.mk.injEq]
    | none =>
      rw [hv] at hspec
      rw [← hspec]
      simp
  · rw [← pairwise_iff_coords_nodup]
    constructor
    · rintro ⟨e, he⟩ hnd
      have hnone : validateSpacing m = none := (validateSpacing_eq_none_iff m).mpr hnd
      unfold updateMap at he
      rw [hnone] at he
      cases he
    · intro hnd
      cases hv : validateSpacing m with
      | some c =>
        refine ⟨.spacingConflict c.1 c.2, ?_⟩
        unfold updateMap
        rw [hv]
      | none => exact absurd ((validateSpacing_eq_none_iff m).mp hv) hnd

/-- Claim C3, witness: a map with two stations in the same cell is rejected
with an error naming that cell, matching the spec-side first conflict. -/
theorem load_time_spacing_validation_witness :
    updateMap ⟨"m", "m", "m", [⟨"a", "A", 0, 0, []⟩, ⟨"b", "B", 0, 0, []⟩], []⟩ =
        .error (.spacingConflict 0 0) ↔
      firstConflictSpec [⟨"a", "A", 0, 0, []⟩, ⟨"b", "B", 0, 0, []⟩] = some (0, 0) :=
  (load_time_spacing_validation ⟨"m", "m", "m",
    [⟨"a", "A", 0, 0, []⟩, ⟨"b", "B", 0, 0, []⟩], []⟩).1 0 0

end Metro

namespace Metro

/-- Claim C6: appending a third station to a line through `(0,0)` and
`(1,0)` places it at `(2,0)`; in general, with at least two stations on the
line and the straddling stations resolvable, the inferred orientation is
horizontal exactly when the x-delta dominates, and the direction is `+1`
exactly when the delta along the chosen axis is non-negative. -/
theorem orientation_continuation :
    (addStationCoord store6 ⟨"red", "C", none, none, none⟩ = some (2, 0)) ∧
    (∀ (lookup : List (String × Station)) (line : Line) (insertionIndex : Nat)
        (fid sid : String) (first second : Station),
      2 ≤ line.stations.length →
      line.stations[max 1 (insertionIndex - 1) - 1]? = some fid →
      (if max 1 (insertionIndex - 1) < line.stations.length
        then line.stations[max 1 (insertionIndex - 1)]?
        else line.stations[max 1 (insertionIndex - 1) - 1]?) = some sid →
      dictGet lookup fid = some first →
      dictGet lookup sid = some second →
      ∃ o d, inferOrientation lookup line insertionIndex = .ok (o, d) ∧
        (o = Orientation.horizontal ↔
          (second.y - first.y).natAbs ≤ (second.x - first.x).natAbs) ∧
        (d = 1 ∨ d = -1) ∧
        (o = Orientation.horizontal → (d = 1 ↔ 0 ≤ second.x - first.x)) ∧
        (o = Orientation.vertical → (d = 1 ↔ 0 ≤ second.y - first.y))) := by
  constructor
  · decide
  · intro lookup line insertionIndex fid sid first second h2 hf hs hdf hds
    have hs2 : (if max 1 (insertionIndex - 1) < line.stations.length
        then line.stations[max 1 (insertionIndex - 1)]? else some fid) = some sid := by
      by_cases hlt : max 1 (insertionIndex - 1) < line.stations.length
      · rw [if_pos hlt] at hs ⊢
        exact hs
      · rw [if_neg hlt] at hs ⊢
        rw [hf] at hs
        exact hs
    simp only [inferOrientation, if_pos h2, hf, hs2, hdf, hds]
    by_cases hcmp : (second.y - first.y).natAbs ≤ (second.x - first.x).natAbs
    · by_cases hdx : 0 ≤ second.x - first.x
      · rw [if_pos hcmp, if_pos hdx]
        exact ⟨Orientation.horizontal, 1, rfl, by simp [hcmp],
          Or.inl rfl, fun _ => ⟨fun _ => hdx, fun _ => rfl⟩,
          fun hc => absurd hc (by decide)⟩
      · rw [if_pos hcmp, if_neg hdx]
        exact ⟨Orientation.horizontal, -1, rfl, by simp [hcmp],
          Or.inr rfl, fun _ => ⟨fun h1 => absurd h1 (by decide), fun h1 => absurd h1 hdx⟩,
          fun hc => absurd hc (by decide)⟩
    · by_cases hdy : 0 ≤ second.y - first.y
      · rw [if_neg hcmp, if_pos hdy]
        exact ⟨Orientation.vertical, 1, rfl, by simp [hcmp],
          Or.inl rfl, fun hc => absurd hc (by decide),
          fun _ => ⟨fun _ => hdy, fun _ => rfl⟩⟩
      · rw [if_neg hcmp, if_neg hdy]
        exact ⟨Orientation.vertical, -1, rfl, by simp [hcmp],
          Or.inr rfl, fun hc => absurd hc (by decide),
          fun _ => ⟨fun h1 => absurd h1 (by decide), fun h1 => absurd h1 hdy⟩⟩

/-- Claim C6, witness: the general statement instantiated at the two-station
red line of `store6` with the append insertion index. -/
theorem orientation_continuation_witness :
    ∃ o d, inferOrientation store6.stationLookup ln6 2 = .ok (o, d) ∧
      (o = Orientation.horizontal ↔ (st6b.y - st6a.y).natAbs ≤ (st6b.x - st6a.x).natAbs) ∧
      (d = 1 ∨ d = -1) ∧
      (o = Orientation.horizontal → (d = 1 ↔ 0 ≤ st6b.x - st6a.x)) ∧
      (o = Orientation.vertical → (d = 1 ↔ 0 ≤ st6b.y - st6a.y)) :=
  (orientation_continuation).2 store6.stationLookup ln6 2 "a" "b" st6a st6b
    (by decide) (by decide) (by decide) (by decide) (by decide)

end Metro

namespace Metro

/-- Claim C7: adding three stations named "Central" to the empty starter map
yields ids `central`, `central-2`, `central-3` in that order; in general
`_next_station_id` returns the normalized name when it is unused, and
otherwise appends `-k` for the least counter `k ≥ 2` whose candidate is
unused — the returned id is always unused. -/
theorem id_allocation_determinism :
    (stationIds (runAdds store0 [⟨"metro", "Central", none, none, none⟩,
        ⟨"metro", "Central", none, none, none⟩, ⟨"metro", "Central", none, none, none⟩]).map =
      ["central", "central-2", "central-3"]) ∧
    (∀ (keys : List String) (name : String),
      nextStationId keys name ∉ keys ∧
      (normalizeId name "station" ∉ keys →
        nextStationId keys name = normalizeId name "station") ∧
      (normalizeId name "station" ∈ keys →
        ∃ k, 2 ≤ k ∧
          nextStationId keys name = normalizeId name "station" ++ "-" ++ natRepr k ∧
          (normalizeId name "station" ++ "-" ++ natRepr k) ∉ keys ∧
          ∀ j, 2 ≤ j → j < k →
            (normalizeId name "station" ++ "-" ++ natRepr j) ∈ keys)) := by
  refine ⟨by decide, ?_⟩
  intro keys name
  refine ⟨nextStationId_not_mem keys name, (nextStationId_spec keys name).1, ?_⟩
  intro h
  obtain ⟨k, hk2, heq, hfree, hmin⟩ := (nextStationId_spec keys name).2 h
  exact ⟨k, hk2, heq, hfree, hmin⟩

/-- Claim C7, witness: with "central" taken, the allocator returns a hyphen
counter candidate, skipping no smaller used counter. -/
theorem id_allocation_determinism_witness :
    ∃ k, 2 ≤ k ∧
      nextStationId ["central"] "Central" = normalizeId "Central" "station" ++ "-" ++ natRepr k ∧
      (normalizeId "Central" "station" ++ "-" ++ natRepr k) ∉ ["central"] ∧
      ∀ j, 2 ≤ j → j < k →
        (normalizeId "Central" "station" ++ "-" ++ natRepr j) ∈ ["central"] :=
  ((id_allocation_determinism).2 ["central"] "Central").2.2 (by decide)

end Metro

namespace Metro

theorem find?_eq_some_split {α : Type} (p : α → Bool) :
    ∀ (l : List α) (a : α), l.find? p = some a →
      p a = true ∧ ∃ l1 l2, l = l1 ++ a :: l2 ∧ ∀ b ∈ l1, p b = false := by
  intro l
  induction l with
  | nil => intro a h; cases h
  | cons x rest ih =>
    intro a h
    by_cases hp : p x
    · rw [List.find?_cons_of_pos _ hp] at h
      injection h with h
      subst h
      exact ⟨hp, [], rest, rfl, by simp⟩
    · rw [List.find?_cons_of_neg _ (by simpa using hp)] at h
      obtain ⟨hpa, l1, l2, heq, hall⟩ := ih a h
      refine ⟨hpa, x :: l1, l2, by rw [heq, List.cons_append], ?_⟩
      intro b hb
      rcases List.mem_cons.mp hb with rfl | hb1
      · simpa using hp
      · exact hall b hb1

/-- Claim C8: a non-empty requested color is returned unchanged; otherwise
the first palette color unused (case-insensitively) by the existing lines is
chosen, and when all eight are used the entry at index `line count mod 8` is
returned — hence nine colorless line creations assign the eight palette
colors once each and then repeat the first. -/
theorem line_color_allocation :
    (∀ (lines : List Line) (r : String), r ≠ "" → pickLineColor lines (some r) = r) ∧
    (∀ lines : List Line,
      (∃ c ∈ SOLARIZED_COLORS, lowerStr c ∉ usedColors lines) →
      ∃ c l1 l2, pickLineColor lines none = c ∧ SOLARIZED_COLORS = l1 ++ c :: l2 ∧
        lowerStr c ∉ usedColors lines ∧ ∀ b ∈ l1, lowerStr b ∈ usedColors lines) ∧
    (∀ lines : List Line,
      (∀ c ∈ SOLARIZED_COLORS, lowerStr c ∈ usedColors lines) →
      pickLineColor lines none = SOLARIZED_COLORS.getD (lines.length % 8) "") ∧
    ((autoCreateLines 9).map (fun l => l.color) =
      SOLARIZED_COLORS ++ [SOLARIZED_COLORS.getD 0 ""]) := by
  refine ⟨?_, ?_, ?_, by decide⟩
  · intro lines r hr
    simp [pickLineColor, hr]
  · intro lines hex
    have hsome : (SOLARIZED_COLORS.find?
        (fun c => !decide (lowerStr c ∈ usedColors lines))).isSome := by
      rw [List.find?_isSome]
      obtain ⟨c, hc, hcu⟩ := hex
      exact ⟨c, hc, by simpa using hcu⟩
    obtain ⟨c, hc⟩ := Option.isSome_iff_exists.mp hsome
    obtain ⟨hpc, l1, l2, hsplit, hall⟩ := find?_eq_some_split _ _ _ hc
    refine ⟨c, l1, l2, ?_, hsplit, by simpa using hpc, ?_⟩
    · simp [pickLineColor, pickLineColor.pickLineColorAuto, hc]
    · intro b hb
      have hfb := hall b hb
      simpa using hfb
  · intro lines hall
    have hnone : SOLARIZED_COLORS.find?
        (fun c => !decide (lowerStr c ∈ usedColors lines)) = none := by
      rw [List.find?_eq_none]
      intro c hcm
      simp [hall c hcm]
    simp only [pickLineColor, pickLineColor.pickLineColorAuto, hnone]
    rfl

/-- Claim C8, witness: a requested color wins, and after eight colorless
creations the palette is exhausted so the ninth pick cycles back via the
line-count index. -/
theorem line_color_allocation_witness :
    pickLineColor [] (some "#123456") = "#123456" ∧
    pickLineColor (autoCreateLines 8) none =
      SOLARIZED_COLORS.getD ((autoCreateLines 8).length % 8) "" :=
  ⟨(line_color_allocation).1 [] "#123456" (by decide),
   (line_color_allocation).2.2.1 (autoCreateLines 8) (by decide)⟩

end Metro

/-! ### after_station_id lemmas -/

namespace Metro

theorem dictGet_isSome_of_mem_keys {α : Type} (d : List (String × α)) (k : String)
    (h : k ∈ keysOf d) : ∃ v, dictGet d k = some v := by
  cases hv : dictGet d k with
  | none => exact absurd ((dictGet_eq_none_iff d k).mp hv) (by simp [h])
  | some v => exact ⟨v, rfl⟩

theorem listIndexOf_eq_none_of_not_mem (l : List String) (x : String) (h : x ∉ l) :
    listIndexOf l x = none := by
  induction l with
  | nil => rfl
  | cons a rest ih =>
    have h1 : ¬ (a = x) := fun he => h (by rw [← he]; exact List.mem_cons_self a rest)
    have h2 : x ∉ rest := fun hm => h (List.mem_cons_of_mem _ hm)
    simp [listIndexOf, h1, ih h2]

theorem listIndexOf_mem (l : List String) (x : String) (h : x ∈ l) :
    ∃ i, listIndexOf l x = some i ∧ i < l.length := by
  induction l with
  | nil => cases h
  | cons a rest ih =>
    by_cases ha : a = x
    · exact ⟨0, by simp [listIndexOf, ha], by simp⟩
    · have h2 : x ∈ rest := by
        rcases List.mem_cons.mp h with h1 | h1
        · exact absurd h1.symm ha
        · exact h1
      obtain ⟨i, hi, hlt⟩ := ih h2
      refine ⟨i + 1, by simp [listIndexOf, ha, hi], ?_⟩
      simp only [List.length_cons]
      omega

theorem mem_of_getElemOpt (l : List String) (n : Nat) (x : String) (h : l[n]? = some x) :
    x ∈ l := by
  induction l generalizing n with
  | nil => simp at h
  | cons a rest ih =>
    cases n with
    | zero =>
      simp only [List.getElem?_cons_zero, Option.some.injEq] at h
      exact h ▸ List.mem_cons_self a rest
    | succ n =>
      simp only [List.getElem?_cons_succ] at h
      exact List.mem_cons_of_mem _ (ih n h)

theorem inferOrientation_ok_of_resolvable (lookup : List (String × Station)) (line : Line)
    (insertionIndex : Nat)
    (h : 2 ≤ line.stations.length →
      ∃ fid sid first second,
        line.stations[max 1 (insertionIndex - 1) - 1]? = some fid ∧
        (if max 1 (insertionIndex - 1) < line.stations.length
          then line.stations[max 1 (insertionIndex - 1)]?
          else line.stations[max 1 (insertionIndex - 1) - 1]?) = some sid ∧
        dictGet lookup fid = some first ∧ dictGet lookup sid = some second) :
    ∃ od, inferOrientation lookup line insertionIndex = .ok od := by
  by_cases h2 : 2 ≤ line.stations.length
  · obtain ⟨fid, sid, first, second, hf, hs, hdf, hds⟩ := h h2
    have hs2 : (if max 1 (insertionIndex - 1) < line.stations.length
        then line.stations[max 1 (insertionIndex - 1)]? else some fid) = some sid := by
      by_cases hlt : max 1 (insertionIndex - 1) < line.stations.length
      · rw [if_pos hlt] at hs ⊢
        exact hs
      · rw [if_neg hlt] at hs ⊢
        rw [hf] at hs
        exact hs
    simp only [inferOrientation, if_pos h2, hf, hs2, hdf, hds]
    by_cases hcmp : (second.y - first.y).natAbs ≤ (second.x - first.x).natAbs
    · rw [if_pos hcmp]
      exact ⟨_, rfl⟩
    · rw [if_neg hcmp]
      exact ⟨_, rfl⟩
  · refine ⟨(Orientation.horizontal, 1), ?_⟩
    unfold inferOrientation
    rw [if_neg h2]

end Metro

namespace Metro

/-- Claim C4, counterexample: with an empty map, an `add_station` call that
passes `after_station_id = "ghost"` succeeds and mutates the map (the freshly
created target line has an empty station list, so the membership check is
skipped entirely), instead of raising a reference error. -/
theorem after_station_id_counterexample :
    exceptIsOk (addStation store0 ⟨"red", "A", none, none, some "ghost"⟩) = true ∧
    store0.map.lines = [] ∧
    (addOutcomeStore store0 ⟨"red", "A", none, none, some "ghost"⟩).map.stations.length =
      store0.map.stations.length + 1 :=
  ⟨by decide, by decide, by decide⟩

/-- Claim C4 (amended): in a store whose lookup tables are consistent (each
station-lookup entry maps a key to a station with that id, and every station
id on an indexed line is a key of the station lookup), an `add_station` call
naming an existing line with a NON-EMPTY station list and a non-empty
`after_station_id` either raises with the store unchanged (when the id is
not a member of the line's list) or succeeds with the new station spliced
immediately after the first occurrence of `after_station_id` (when it is a
member).  When the target line's station list is empty — for example a line
the call itself just created — `after_station_id` is ignored and no error is
raised. -/
theorem after_station_id_validation (s : MetroMapStore)
    (hwfS : ∀ kv ∈ s.stationLookup, kv.2.id = kv.1)
    (hwfL : ∀ kv ∈ s.lineLookup, ∀ sid ∈ kv.2.stations, sid ∈ keysOf s.stationLookup)
    (a : AddArgs) (aid : String) (haid : a.afterStationId = some aid) (hne : aid ≠ "")
    (L : Line) (hL : dictGet s.lineLookup a.lineId = some L) (hstations : L.stations ≠ []) :
    (aid ∉ L.stations → ∃ e, addStation s a = .error (e, s)) ∧
    (aid ∈ L.stations → ∃ r i, addStation s a = .ok r ∧
      listIndexOf L.stations aid = some i ∧
      r.line.stations = insertAt L.stations (i + 1) r.station.id) := by
  have hres : resolveLine s a.lineId (normalizeId a.lineId "line") = some L := by
    unfold resolveLine
    rw [hL]
  have hel : ensureLine s a (normalizeId a.lineId "line") = (s, L) := by
    unfold ensureLine
    rw [hres]
  have hempF : L.stations.isEmpty = false := by
    cases hls : L.stations with
    | nil => exact absurd hls hstations
    | cons hd tl => rfl
  have hram : resolveAnchor s L (some aid) =
      (match dictGet s.stationLookup aid with
       | none => .error (.stationNotOnLine aid L.name)
       | some anchorStation =>
         match listIndexOf L.stations anchorStation.id with
         | none => .error (.notInList anchorStation.id)
         | some i => .ok (i + 1, some anchorStation)) := by
    simp only [resolveAnchor, hempF, Bool.false_eq_true, if_false, if_neg hne]
  constructor
  · intro hnm
    cases hga : dictGet s.stationLookup aid with
    | none =>
      have hra : resolveAnchor s L (some aid) = .error (.stationNotOnLine aid L.name) := by
        rw [hram, hga]
      refine ⟨.stationNotOnLine aid L.name, ?_⟩
      simp only [addStation, hel, haid, hra]
    | some st =>
      have hstid : st.id = aid := hwfS (aid, st) (dictGet_mem _ _ _ hga)
      have hidx : listIndexOf L.stations st.id = none :=
        listIndexOf_eq_none_of_not_mem _ _ (by rw [hstid]; exact hnm)
      have hra : resolveAnchor s L (some aid) = .error (.notInList st.id) := by
        rw [hram, hga]
        simp only [hidx]
      refine ⟨.notInList st.id, ?_⟩
      simp only [addStation, hel, haid, hra]
  · intro hm
    have hkvL : (a.lineId, L) ∈ s.lineLookup := dictGet_mem _ _ _ hL
    have hrefs : ∀ sid ∈ L.stations, sid ∈ keysOf s.stationLookup := hwfL (a.lineId, L) hkvL
    obtain ⟨st, hga⟩ := dictGet_isSome_of_mem_keys _ _ (hrefs aid hm)
    have hstid : st.id = aid := hwfS (aid, st) (dictGet_mem _ _ _ hga)
    obtain ⟨i, hidx0, hilt⟩ := listIndexOf_mem L.stations aid hm
    have hidx : listIndexOf L.stations st.id = some i := by
      rw [hstid]
      exact hidx0
    have hra : resolveAnchor s L (some aid) = .ok (i + 1, some st) := by
      rw [hram, hga]
      simp only [hidx]
    have hresolv : 2 ≤ L.stations.length →
        ∃ fid sid first second,
          L.stations[max 1 (i + 1 - 1) - 1]? = some fid ∧
          (if max 1 (i + 1 - 1) < L.stations.length
            then L.stations[max 1 (i + 1 - 1)]?
            else L.stations[max 1 (i + 1 - 1) - 1]?) = some sid ∧
          dictGet s.stationLookup fid = some first ∧
          dictGet s.stationLookup sid = some second := by
      intro h2
      have hflt : max 1 (i + 1 - 1) - 1 < L.stations.length := by omega
      have hslt : max 1 (i + 1 - 1) < L.stations.length := by omega
      obtain ⟨fid, hf⟩ : ∃ fid, L.stations[max 1 (i + 1 - 1) - 1]? = some fid :=
        ⟨_, List.getElem?_eq_getElem hflt⟩
      obtain ⟨sid, hs⟩ : ∃ sid, L.stations[max 1 (i + 1 - 1)]? = some sid :=
        ⟨_, List.getElem?_eq_getElem hslt⟩
      have hfm : fid ∈ L.stations := mem_of_getElemOpt _ _ _ hf
      have hsm : sid ∈ L.stations := mem_of_getElemOpt _ _ _ hs
      obtain ⟨first, hdf⟩ := dictGet_isSome_of_mem_keys _ _ (hrefs fid hfm)
      obtain ⟨second, hds⟩ := dictGet_isSome_of_mem_keys _ _ (hrefs sid hsm)
      exact ⟨fid, sid, first, second, hf, by rw [if_pos hslt]; exact hs, hdf, hds⟩
    obtain ⟨od, hio⟩ := inferOrientation_ok_of_resolvable s.stationLookup L (i + 1) hresolv
    obtain ⟨o, d⟩ := od
    obtain ⟨c, hpc, -⟩ := planCoordinates_total s.map.stations (some st) o d
    refine ⟨commitStation s L (i + 1)
      (nextStationId (keysOf s.stationLookup) a.stationName) a.stationName c.1 c.2,
      i, ?_, hidx0, rfl⟩
    simp only [addStation, hel, haid, hra, hio, hpc]
end Metro

namespace Metro

/-- Claim C4, witness: on a two-station red line, adding "Branch" after
station "a" succeeds and splices the new station immediately after "a". -/
theorem after_station_id_validation_witness :
    ∃ r i, addStation store6 ⟨"red", "Branch", none, none, some "a"⟩ = .ok r ∧
      listIndexOf ln6.stations "a" = some i ∧
      r.line.stations = insertAt ln6.stations (i + 1) r.station.id :=
  (after_station_id_validation store6 (by decide) (by decide)
      ⟨"red", "Branch", none, none, some "a"⟩ "a" rfl (by decide) ln6 (by decide)
      (by decide)).2 (by decide)

end Metro
